import Mathlib

/-!
Verification of the contig-bridging orchestration (`contig_bridge.cpp`).

The development shallowly embeds the statistics engine (`StatReadInfo`
with its `scan_overlap` / `combine` lambdas), the robust threshold
auto-selection (`AutoSelect*`), the parameter phase of `Run`, and the
output stage (`SaveBridgedContigs`).  Collaborator types that live in
headers outside the repository slice (the `Overlap` record's derived
metrics, `ReadStatInfo`'s field defaults, the sequence store, the graph
accessors, `ComputeMedianAbsoluteDeviation`) are modelled from the
specification; each such definition carries a doc comment saying so.

C++ `double` values (identity percentages, medians) are modelled as `ℚ`;
C++ integer types as `Int`; the C++ `(int)` cast of a `double` is
truncation toward zero (`dtoi`).
-/

namespace ContigBridge

/-- Truncation of a rational toward zero: the semantics of the C++
`(int)` cast applied to a `double` value. -/
def dtoi (q : ℚ) : Int := if 0 ≤ q then ⌊q⌋ else ⌈q⌉

/-- Modelled from the spec: the location classification of an overlap,
`enum{Normal, Abnormal}` (the `Overlap::Loc` type is declared in a header
outside the repository slice). -/
inductive Loc where
  | Normal
  | Abnormal
  deriving DecidableEq, Repr

/-- One side of an overlap record: `(id, start, end, len)` as in the
spec's data model (the `Overlap` struct itself is in a header outside the
repository slice). -/
structure OvlSide where
  id : Int
  start : Int
  end_ : Int
  len : Int
  deriving DecidableEq, Repr

/-- Modelled from the spec: an immutable overlap record
`{a, b, identity, location}` with the derived metrics `AlignedLength()`
and `Overhang() -> (overhang_a, overhang_b)` (negative sentinel means
"not applicable").  The derived metrics are carried as data because their
computing code is in a header outside the repository slice; `loc` is the
value of `o.Location(th_overhang)` at the scan's overhang threshold. -/
structure Overlap where
  a : OvlSide
  b : OvlSide
  identity : ℚ
  alignedLength : Int
  overhang : Int × Int
  loc : Loc
  deriving DecidableEq, Repr

/-- The per-sequence aggregate of the statistics engine.  The struct is
declared in a header outside the repository slice; the field list is
taken from its uses in `scan_overlap`/`combine` and the defaults are
modelled from the spec (`overhang`: negative sentinel "-1" until an
overhang-bearing record is seen, counts start at zero). -/
structure ReadStatInfo where
  identity : ℚ := 0
  overhang : Int := -1
  oh_count : Int := 0
  score : Int := 0
  len : Int := 0
  aligned : Int := 0
  count : Int := 0
  deriving DecidableEq, Repr

/-- A worker accumulator / the shared result of `StatReadInfo`:
a map from sequence id to its aggregate. -/
def StatMap := Int → Option ReadStatInfo

/-- The empty accumulator. -/
def StatMap.empty : StatMap := fun _ => none

/-- Point update of an accumulator (`work.readInfos[id] = info`). -/
def StatMap.set (m : StatMap) (k : Int) (v : ReadStatInfo) : StatMap :=
  fun k' => if k' = k then some v else m k'

/-- The filter of `scan_overlap`:
`o.identity_ > th_identity && o.AlignedLength() >= 2000 && loc != Abnormal`. -/
def passFilter (th_identity : Int) (o : Overlap) : Prop :=
  (th_identity : ℚ) < o.identity ∧ 2000 ≤ o.alignedLength ∧ o.loc ≠ Loc.Abnormal

instance (th : Int) (o : Overlap) : Decidable (passFilter th o) := by
  unfold passFilter; infer_instance

/-- The update of an existing `ReadStatInfo` entry by one side of a
passing overlap, exactly as in `scan_overlap`: keep the higher-scoring
`(score, identity)` pair, raise `overhang` to the max and bump `oh_count`
when the side's overhang is non-negative, accumulate `aligned`, bump
`count`. -/
def updateEntry (info : ReadStatInfo) (score : Int) (identity : ℚ)
    (ohg : Int) (alignedDelta : Int) : ReadStatInfo :=
  let info := if info.score < score
    then { info with score := score, identity := identity } else info
  let info := if 0 ≤ ohg
    then { info with overhang := max info.overhang ohg,
                     oh_count := info.oh_count + 1 } else info
  { info with aligned := info.aligned + alignedDelta,
              count := info.count + 1 }

/-- The fresh `ReadStatInfo` built by `scan_overlap` for a side whose id
is not yet in the accumulator. -/
def newEntry (side : OvlSide) (score : Int) (identity : ℚ)
    (ohg : Int) : ReadStatInfo :=
  { identity := identity
    overhang := if 0 ≤ ohg then ohg else -1
    oh_count := if 0 ≤ ohg then 1 else 0
    score := score
    len := side.len
    aligned := side.end_ - side.start
    count := 1 }

/-- The `scan_overlap` lambda of `StatReadInfo` acting on one worker
accumulator.  Faithful to the source: the `b`-side iterator `bread` is
looked up *before* the `a`-side insertion, so for a record with
`a_.id == b_.id` whose id is new to the accumulator the `b`-side
assignment `work.readInfos[o.b_.id] = info` overwrites the entry the
`a`-side just created. -/
def scan_overlap (th_identity : Int) (m : StatMap) (o : Overlap) : StatMap :=
  if passFilter th_identity o then
    let score := dtoi (o.identity * (o.alignedLength : ℚ))
    let breadExisted := (m o.b.id).isSome
    let m1 := match m o.a.id with
      | some info =>
        m.set o.a.id (updateEntry info score o.identity o.overhang.1 (o.a.end_ - o.a.start))
      | none =>
        m.set o.a.id (newEntry o.a score o.identity o.overhang.1)
    if breadExisted then
      match m1 o.b.id with
      | some info =>
        m1.set o.b.id (updateEntry info score o.identity o.overhang.2 (o.b.end_ - o.b.start))
      | none => m1
    else
      m1.set o.b.id (newEntry o.b score o.identity o.overhang.2)
  else m

/-- The per-entry merge rule of the `combine` lambda: keep the
higher-scoring `(score, identity)` pair, add `count` and `aligned`, and
when the local entry carries a non-negative overhang take the max
overhang and add `oh_count`. -/
def combineEntry (shared lo : ReadStatInfo) : ReadStatInfo :=
  let s := if shared.score < lo.score
    then { shared with score := lo.score, identity := lo.identity }
    else shared
  let s := { s with count := s.count + lo.count,
                    aligned := s.aligned + lo.aligned }
  if 0 ≤ lo.overhang
    then { s with overhang := max s.overhang lo.overhang,
                  oh_count := s.oh_count + lo.oh_count }
    else s

/-- The `combine` lambda: merge a worker accumulator into the shared map.
The C++ loop iterates over the local map's entries; since distinct keys
touch distinct shared entries the result is this pointwise function,
independent of the unordered-map iteration order. -/
def combine (shared lo : StatMap) : StatMap := fun k =>
  match lo k with
  | none => shared k
  | some li =>
    match shared k with
    | some si => some (combineEntry si li)
    | none => some li

/-- Single-threaded baseline of `StatReadInfo`: every record processed
in order into one accumulator. -/
def seqScan (th_identity : Int) (os : List Overlap) : StatMap :=
  os.foldl (scan_overlap th_identity) StatMap.empty

/-- Concurrent `StatReadInfo`: the record stream is split into worker
batches (a spill at the 50000-entry capacity just makes the partition
finer); each batch is scanned into its own accumulator and the
accumulators are merged into the shared map with `combine`. -/
def parScan (th_identity : Int) (batches : List (List Overlap)) : StatMap :=
  (batches.map (seqScan th_identity)).foldl combine StatMap.empty

/-- The integer fields of a `ReadStatInfo`. -/
structure IntView where
  score : Int
  len : Int
  aligned : Int
  count : Int
  ohg : Int
  oh_count : Int
  deriving DecidableEq, Repr

/-- Projection of a `ReadStatInfo` onto its integer fields
(score, len, aligned, count, overhang, oh_count). -/
def intFields (r : ReadStatInfo) : IntView :=
  ⟨r.score, r.len, r.aligned, r.count, r.overhang, r.oh_count⟩

/-! ### Canonical characterization of the scan

One side of one passing overlap record makes one *contribution* to the
statistics of its sequence id.  The integer fields of a map entry are a
fold of the id's contributions; this characterization is what makes the
order-independence argument go through. -/

/-- One side's contribution to its id's statistics. -/
structure Contrib where
  score : Int
  len : Int
  aligned : Int
  ohg : Int
  deriving DecidableEq, Repr

/-- The contribution of one overlap side. -/
def sideContrib (score : Int) (side : OvlSide) (ohg : Int) : Contrib :=
  ⟨score, side.len, side.end_ - side.start, ohg⟩

/-- The score the scan computes for a passing record:
`int score = o.identity_ * o.AlignedLength()`. -/
def scoreOf (o : Overlap) : Int := dtoi (o.identity * (o.alignedLength : ℚ))

/-- The contributions of one overlap record to sequence id `k`. -/
def contribsOf (th : Int) (o : Overlap) (k : Int) : List Contrib :=
  if passFilter th o then
    (if o.a.id = k then [sideContrib (scoreOf o) o.a o.overhang.1] else []) ++
    (if o.b.id = k then [sideContrib (scoreOf o) o.b o.overhang.2] else [])
  else []

/-- All contributions of a record list to sequence id `k`. -/
def contribs (th : Int) (os : List Overlap) (k : Int) : List Contrib :=
  os.flatMap (fun o => contribsOf th o k)

/-- Integer-field view of applying one contribution to an existing entry. -/
def stepView (v : IntView) (c : Contrib) : IntView :=
  { score := max v.score c.score
    len := v.len
    aligned := v.aligned + c.aligned
    count := v.count + 1
    ohg := if 0 ≤ c.ohg then max v.ohg c.ohg else v.ohg
    oh_count := v.oh_count + (if 0 ≤ c.ohg then 1 else 0) }

/-- Integer-field view of the entry created from a first contribution. -/
def newView (c : Contrib) : IntView :=
  { score := c.score
    len := c.len
    aligned := c.aligned
    count := 1
    ohg := if 0 ≤ c.ohg then c.ohg else -1
    oh_count := if 0 ≤ c.ohg then 1 else 0 }

/-- Folding one contribution into an optional entry view. -/
def canonFold : Option IntView → Contrib → Option IntView
  | none, c => some (newView c)
  | some v, c => some (stepView v c)

/-- Canonical integer-field entry determined by a contribution list. -/
def canon (cs : List Contrib) : Option IntView := cs.foldl canonFold none

/-- Integer-field view of `combineEntry`. -/
def combineView (s l : IntView) : IntView :=
  let s1 := { s with score := max s.score l.score }
  let s2 := { s1 with count := s1.count + l.count,
                      aligned := s1.aligned + l.aligned }
  if 0 ≤ l.ohg
    then { s2 with ohg := max s2.ohg l.ohg,
                   oh_count := s2.oh_count + l.oh_count }
    else s2

lemma view_updateEntry (info : ReadStatInfo) (s : Int) (i : ℚ) (g d L : Int) :
    intFields (updateEntry info s i g d) = stepView (intFields info) ⟨s, L, d, g⟩ := by
  unfold updateEntry stepView intFields
  split_ifs <;> simp_all <;> omega

lemma view_newEntry (side : OvlSide) (s : Int) (i : ℚ) (g : Int) :
    intFields (newEntry side s i g) = newView ⟨s, side.len, side.end_ - side.start, g⟩ := by
  unfold newEntry newView intFields
  split_ifs <;> rfl

lemma view_combineEntry (si li : ReadStatInfo) :
    intFields (combineEntry si li) = combineView (intFields si) (intFields li) := by
  unfold combineEntry combineView intFields
  split_ifs <;> simp_all <;> omega

/-- Entry invariant: a negative stored overhang means no overhang-bearing
contribution has been counted. -/
def OhInv (v : IntView) : Prop := 0 ≤ v.ohg ∨ v.oh_count = 0

lemma ohInv_newView (c : Contrib) : OhInv (newView c) := by
  unfold OhInv newView
  split_ifs with h
  · exact Or.inl h
  · exact Or.inr rfl

lemma ohInv_stepView (v : IntView) (c : Contrib) (h : OhInv v) :
    OhInv (stepView v c) := by
  unfold OhInv at h ⊢
  unfold stepView
  split_ifs with hc
  · exact Or.inl (le_trans hc (le_max_right _ _))
  · simpa using h

lemma canon_ohInv : ∀ (cs : List Contrib) (acc : Option IntView),
    (∀ v, acc = some v → OhInv v) →
    ∀ w, cs.foldl canonFold acc = some w → OhInv w
  | [], acc, hacc, w, hw => hacc w hw
  | c :: cs, acc, hacc, w, hw => by
    refine canon_ohInv cs (canonFold acc c) ?_ w hw
    intro v hv
    cases acc with
    | none => simp [canonFold] at hv; subst hv; exact ohInv_newView c
    | some u =>
      simp [canonFold] at hv
      subst hv
      exact ohInv_stepView u c (hacc u rfl)

lemma combineView_newView (s : IntView) (c : Contrib) :
    combineView s (newView c) = stepView s c := by
  unfold combineView newView stepView
  simp only [IntView.mk.injEq, Int.max_def]
  split_ifs <;> simp_all

lemma combineView_stepView (s l : IntView) (c : Contrib) (h : OhInv l) :
    combineView s (stepView l c) = stepView (combineView s l) c := by
  unfold OhInv at h
  unfold combineView stepView
  rcases le_or_lt 0 c.ohg with hc | hc <;> rcases le_or_lt 0 l.ohg with hl | hl
  · have h1 : 0 ≤ max l.ohg c.ohg := le_trans hc (le_max_right _ _)
    simp [hc, hl, h1, IntView.mk.injEq, max_assoc, add_assoc]
  · have h0 : l.oh_count = 0 := h.resolve_left (not_le.mpr hl)
    have h1 : max l.ohg c.ohg = c.ohg := max_eq_right (le_of_lt (lt_of_lt_of_le hl hc))
    simp [hc, not_le.mpr hl, h1, h0, IntView.mk.injEq, max_assoc, add_assoc]
  · simp [not_le.mpr hc, hl, IntView.mk.injEq, max_assoc, add_assoc]
  · simp [not_le.mpr hc, not_le.mpr hl, IntView.mk.injEq, max_assoc, add_assoc]

/-- `canon` of a nonempty prefix is always `some`. -/
lemma foldl_canonFold_some (cs : List Contrib) (v : IntView) :
    ∃ w, cs.foldl canonFold (some v) = some w := by
  induction cs generalizing v with
  | nil => exact ⟨v, rfl⟩
  | cons c cs ih => exact ih (stepView v c)

lemma canon_eq_none (cs : List Contrib) (h : canon cs = none) : cs = [] := by
  cases cs with
  | nil => rfl
  | cons c cs =>
    exfalso
    unfold canon at h
    simp only [List.foldl_cons, canonFold] at h
    obtain ⟨w, hw⟩ := foldl_canonFold_some cs (newView c)
    rw [hw] at h
    exact Option.noConfusion h

/-- Folding a contribution list onto an existing entry equals merging the
list's canonical entry with `combineView`. -/
lemma foldl_canon_combineView (cs : List Contrib) (sv lv : IntView)
    (h : canon cs = some lv) :
    cs.foldl canonFold (some sv) = some (combineView sv lv) := by
  induction cs using List.reverseRecOn generalizing lv with
  | nil => simp [canon] at h
  | append_singleton ds c ih =>
    rw [List.foldl_append]
    unfold canon at h
    rw [List.foldl_append] at h
    cases hds : ds.foldl canonFold (none : Option IntView) with
    | none =>
      have hnil : ds = [] := canon_eq_none ds hds
      subst hnil
      simp only [List.foldl_nil, List.foldl_cons, canonFold, Option.some.injEq] at h
      subst h
      simp only [List.foldl_cons, List.foldl_nil, canonFold, Option.some.injEq]
      exact (combineView_newView sv c).symm
    | some lv' =>
      rw [hds] at h
      simp only [List.foldl_cons, List.foldl_nil, canonFold, Option.some.injEq] at h
      subst h
      rw [ih lv' hds]
      simp only [List.foldl_cons, List.foldl_nil, canonFold, Option.some.injEq]
      have hinv : OhInv lv' := canon_ohInv ds none (by intro v hv; cases hv) lv' hds
      exact (combineView_stepView sv lv' c hinv).symm

/-- Correspondence between a map and the contributions already seen:
every id's entry carries the canonical integer fields. -/
def MapCanon (th : Int) (m : StatMap) (os : List Overlap) : Prop :=
  ∀ k, (m k).map intFields = canon (contribs th os k)

lemma mapCanon_empty (th : Int) : MapCanon th StatMap.empty [] := by
  intro k
  simp [StatMap.empty, contribs, canon]

lemma contribs_append (th : Int) (os os' : List Overlap) (k : Int) :
    contribs th (os ++ os') k = contribs th os k ++ contribs th os' k := by
  unfold contribs
  exact List.flatMap_append ..

lemma contribsOf_other (th : Int) (o : Overlap) (k : Int)
    (hka : k ≠ o.a.id) (hkb : k ≠ o.b.id) : contribsOf th o k = [] := by
  unfold contribsOf
  by_cases hp : passFilter th o
  · rw [if_pos hp, if_neg (fun h => hka h.symm), if_neg (fun h => hkb h.symm)]
    rfl
  · rw [if_neg hp]

lemma contribsOf_notPass (th : Int) (o : Overlap) (k : Int)
    (hp : ¬ passFilter th o) : contribsOf th o k = [] := by
  unfold contribsOf
  rw [if_neg hp]

lemma contribsOf_a (th : Int) (o : Overlap) (hp : passFilter th o)
    (hab : o.a.id ≠ o.b.id) :
    contribsOf th o o.a.id = [sideContrib (scoreOf o) o.a o.overhang.1] := by
  unfold contribsOf
  rw [if_pos hp, if_pos rfl, if_neg (fun h => hab h.symm)]
  rfl

lemma contribsOf_b (th : Int) (o : Overlap) (hp : passFilter th o)
    (hab : o.a.id ≠ o.b.id) :
    contribsOf th o o.b.id = [sideContrib (scoreOf o) o.b o.overhang.2] := by
  unfold contribsOf
  rw [if_pos hp, if_neg hab, if_pos rfl]
  rfl

lemma scan_eval_notPass (th : Int) (m : StatMap) (o : Overlap)
    (hp : ¬ passFilter th o) : scan_overlap th m o = m := by
  unfold scan_overlap
  rw [if_neg hp]

lemma scan_eval_other (th : Int) (m : StatMap) (o : Overlap) (k : Int)
    (hka : k ≠ o.a.id) (hkb : k ≠ o.b.id) :
    scan_overlap th m o k = m k := by
  unfold scan_overlap
  by_cases hp : passFilter th o
  · rw [if_pos hp]
    cases hma : m o.a.id <;> cases hmb : m o.b.id <;>
      simp only [hma, hmb, Option.isSome_some, Option.isSome_none, StatMap.set,
        if_neg hka, if_neg hkb, if_true, if_false, Bool.false_eq_true] <;>
      (try split) <;>
      simp [StatMap.set, if_neg hka, if_neg hkb]
  · rw [if_neg hp]

lemma scan_eval_a (th : Int) (m : StatMap) (o : Overlap)
    (hp : passFilter th o) (hab : o.a.id ≠ o.b.id) :
    scan_overlap th m o o.a.id =
      some (match m o.a.id with
        | some info =>
          updateEntry info (scoreOf o) o.identity o.overhang.1 (o.a.end_ - o.a.start)
        | none => newEntry o.a (scoreOf o) o.identity o.overhang.1) := by
  unfold scan_overlap
  rw [if_pos hp]
  have hba : ¬ (o.a.id = o.b.id) := hab
  cases hma : m o.a.id <;> cases hmb : m o.b.id <;>
    simp only [hma, hmb, Option.isSome_some, Option.isSome_none, StatMap.set,
      if_neg hba, if_pos rfl, if_true, if_false, Bool.false_eq_true] <;>
    (try split) <;>
    simp_all [StatMap.set, scoreOf]

lemma scan_eval_b (th : Int) (m : StatMap) (o : Overlap)
    (hp : passFilter th o) (hab : o.a.id ≠ o.b.id) :
    scan_overlap th m o o.b.id =
      some (match m o.b.id with
        | some info =>
          updateEntry info (scoreOf o) o.identity o.overhang.2 (o.b.end_ - o.b.start)
        | none => newEntry o.b (scoreOf o) o.identity o.overhang.2) := by
  unfold scan_overlap
  rw [if_pos hp]
  have hba : ¬ (o.b.id = o.a.id) := fun h => hab h.symm
  cases hma : m o.a.id <;> cases hmb : m o.b.id <;>
    simp only [hma, hmb, Option.isSome_some, Option.isSome_none, StatMap.set,
      if_neg hba, if_pos rfl, if_true, if_false, Bool.false_eq_true] <;>
    (try split) <;>
    simp_all [StatMap.set, scoreOf]

lemma canon_append_singleton (cs : List Contrib) (c : Contrib) :
    canon (cs ++ [c]) = canonFold (canon cs) c := by
  unfold canon
  rw [List.foldl_append]
  rfl

lemma mapCanon_scan (th : Int) (m : StatMap) (os : List Overlap) (o : Overlap)
    (hab : o.a.id ≠ o.b.id) (hm : MapCanon th m os) :
    MapCanon th (scan_overlap th m o) (os ++ [o]) := by
  intro k
  rw [contribs_append]
  have hsing : contribs th [o] k = contribsOf th o k := by simp [contribs]
  rw [hsing]
  by_cases hp : passFilter th o
  · by_cases hka : k = o.a.id
    · subst hka
      rw [scan_eval_a th m o hp hab, contribsOf_a th o hp hab,
          canon_append_singleton]
      have hk := hm o.a.id
      cases hma : m o.a.id with
      | some info =>
        rw [hma] at hk
        simp only [Option.map_some'] at hk
        rw [← hk]
        simp only [canonFold, Option.map_some', Option.some.injEq]
        exact view_updateEntry info (scoreOf o) o.identity o.overhang.1 _ o.a.len
      | none =>
        rw [hma] at hk
        simp only [Option.map_none'] at hk
        rw [← hk]
        simp only [canonFold, Option.map_some', Option.some.injEq]
        exact view_newEntry o.a (scoreOf o) o.identity o.overhang.1
    · by_cases hkb : k = o.b.id
      · subst hkb
        rw [scan_eval_b th m o hp hab, contribsOf_b th o hp hab,
            canon_append_singleton]
        have hk := hm o.b.id
        cases hmb : m o.b.id with
        | some info =>
          rw [hmb] at hk
          simp only [Option.map_some'] at hk
          rw [← hk]
          simp only [canonFold, Option.map_some', Option.some.injEq]
          exact view_updateEntry info (scoreOf o) o.identity o.overhang.2 _ o.b.len
        | none =>
          rw [hmb] at hk
          simp only [Option.map_none'] at hk
          rw [← hk]
          simp only [canonFold, Option.map_some', Option.some.injEq]
          exact view_newEntry o.b (scoreOf o) o.identity o.overhang.2
      · rw [scan_eval_other th m o k hka hkb, contribsOf_other th o k hka hkb,
            List.append_nil]
        exact hm k
  · rw [scan_eval_notPass th m o hp, contribsOf_notPass th o k hp,
        List.append_nil]
    exact hm k

lemma mapCanon_seqScan_aux (th : Int) (os : List Overlap) :
    ∀ (m : StatMap) (pref : List Overlap),
      (∀ o ∈ os, o.a.id ≠ o.b.id) → MapCanon th m pref →
      MapCanon th (os.foldl (scan_overlap th) m) (pref ++ os) := by
  induction os with
  | nil =>
    intro m pref _ hm
    simpa using hm
  | cons o os ih =>
    intro m pref hself hm
    have h1 : MapCanon th (scan_overlap th m o) (pref ++ [o]) :=
      mapCanon_scan th m pref o (hself o (by simp)) hm
    have h2 := ih (scan_overlap th m o) (pref ++ [o])
      (fun o' ho' => hself o' (by simp [ho'])) h1
    simpa [List.append_assoc] using h2

lemma mapCanon_seqScan (th : Int) (os : List Overlap)
    (hself : ∀ o ∈ os, o.a.id ≠ o.b.id) :
    MapCanon th (seqScan th os) os := by
  simpa [seqScan] using
    mapCanon_seqScan_aux th os StatMap.empty [] hself (mapCanon_empty th)

lemma mapCanon_combine (th : Int) (s l : StatMap) (os1 os2 : List Overlap)
    (hs : MapCanon th s os1) (hl : MapCanon th l os2) :
    MapCanon th (combine s l) (os1 ++ os2) := by
  intro k
  rw [contribs_append]
  unfold combine
  cases hlk : l k with
  | none =>
    have h2 := hl k
    rw [hlk] at h2
    simp only [Option.map_none'] at h2
    have hc2 : contribs th os2 k = [] := canon_eq_none _ h2.symm
    rw [hc2, List.append_nil]
    exact hs k
  | some li =>
    have h2 := hl k
    rw [hlk] at h2
    simp only [Option.map_some'] at h2
    cases hsk : s k with
    | none =>
      have h1 := hs k
      rw [hsk] at h1
      simp only [Option.map_none'] at h1
      have hc1 : contribs th os1 k = [] := canon_eq_none _ h1.symm
      rw [hc1, List.nil_append]
      simpa using h2
    | some si =>
      have h1 := hs k
      rw [hsk] at h1
      simp only [Option.map_some'] at h1
      have hfold := foldl_canon_combineView (contribs th os2 k)
        (intFields si) (intFields li) h2.symm
      unfold canon
      rw [List.foldl_append]
      have hc1 : (contribs th os1 k).foldl canonFold none = some (intFields si) := by
        unfold canon at h1
        exact h1.symm
      rw [hc1, hfold]
      simp only [Option.map_some', Option.some.injEq]
      exact view_combineEntry si li

lemma mapCanon_parScan_aux (th : Int) (batches : List (List Overlap)) :
    ∀ (acc : StatMap) (pref : List Overlap),
      (∀ b ∈ batches, ∀ o ∈ b, o.a.id ≠ o.b.id) → MapCanon th acc pref →
      MapCanon th ((batches.map (seqScan th)).foldl combine acc)
        (pref ++ batches.flatten) := by
  induction batches with
  | nil =>
    intro acc pref _ hm
    simpa using hm
  | cons b bs ih =>
    intro acc pref hself hm
    have hb : MapCanon th (seqScan th b) b :=
      mapCanon_seqScan th b (hself b (by simp))
    have h1 : MapCanon th (combine acc (seqScan th b)) (pref ++ b) :=
      mapCanon_combine th acc (seqScan th b) pref b hm hb
    have h2 := ih (combine acc (seqScan th b)) (pref ++ b)
      (fun b' hb' o ho => hself b' (by simp [hb']) o ho) h1
    simpa [List.append_assoc] using h2

lemma mapCanon_parScan (th : Int) (batches : List (List Overlap))
    (hself : ∀ b ∈ batches, ∀ o ∈ b, o.a.id ≠ o.b.id) :
    MapCanon th (parScan th batches) batches.flatten := by
  simpa [parScan] using
    mapCanon_parScan_aux th batches StatMap.empty [] hself (mapCanon_empty th)

lemma stepView_stepView_comm (v : IntView) (c1 c2 : Contrib) :
    stepView (stepView v c1) c2 = stepView (stepView v c2) c1 := by
  unfold stepView
  rcases le_or_lt 0 c1.ohg with h1 | h1 <;> rcases le_or_lt 0 c2.ohg with h2 | h2 <;>
    simp [h1, h2, not_le.mpr, IntView.mk.injEq, sup_right_comm, add_right_comm]

lemma stepView_newView_comm (c1 c2 : Contrib) (hlen : c1.len = c2.len) :
    stepView (newView c1) c2 = stepView (newView c2) c1 := by
  unfold stepView newView
  rcases le_or_lt 0 c1.ohg with h1 | h1 <;> rcases le_or_lt 0 c2.ohg with h2 | h2
  · simp [h1, h2, IntView.mk.injEq, sup_comm, add_comm, hlen]
  · have hmx : max (-1 : Int) c1.ohg = c1.ohg := max_eq_right (by omega)
    simp [h1, not_le.mpr h2, IntView.mk.injEq, hlen, sup_comm, add_comm, hmx]
    omega
  · have hmx : max (-1 : Int) c2.ohg = c2.ohg := max_eq_right (by omega)
    simp [not_le.mpr h1, h2, IntView.mk.injEq, hlen, sup_comm, add_comm, hmx]
    omega
  · simp [not_le.mpr h1, not_le.mpr h2, IntView.mk.injEq, hlen, sup_comm, add_comm]

lemma canonFold_swap (acc : Option IntView) (c1 c2 : Contrib)
    (hlen : c1.len = c2.len) :
    canonFold (canonFold acc c1) c2 = canonFold (canonFold acc c2) c1 := by
  cases acc with
  | none =>
    simp only [canonFold, Option.some.injEq]
    exact stepView_newView_comm c1 c2 hlen
  | some v =>
    simp only [canonFold, Option.some.injEq]
    exact stepView_stepView_comm v c1 c2

lemma foldl_canonFold_perm (L : Int) {cs cs' : List Contrib}
    (p : cs.Perm cs') :
    (∀ c ∈ cs, c.len = L) →
      ∀ acc, cs.foldl canonFold acc = cs'.foldl canonFold acc := by
  induction p with
  | nil =>
    intro _ _
    rfl
  | cons x p ih =>
    intro hlen acc
    simp only [List.foldl_cons]
    exact ih (fun c hc => hlen c (List.mem_cons_of_mem _ hc)) (canonFold acc x)
  | swap x y l =>
    intro hlen acc
    simp only [List.foldl_cons]
    rw [canonFold_swap acc y x (by rw [hlen y (by simp), hlen x (by simp)])]
  | trans p1 p2 ih1 ih2 =>
    intro hlen acc
    rw [ih1 hlen acc, ih2 (fun c hc => hlen c (p1.mem_iff.mpr hc)) acc]

lemma canon_perm (L : Int) {cs cs' : List Contrib} (p : cs.Perm cs')
    (hlen : ∀ c ∈ cs, c.len = L) : canon cs = canon cs' :=
  foldl_canonFold_perm L p hlen none

lemma contribs_len (th : Int) (os : List Overlap) (len_of : Int → Int)
    (hlen : ∀ o ∈ os, o.a.len = len_of o.a.id ∧ o.b.len = len_of o.b.id)
    (k : Int) : ∀ c ∈ contribs th os k, c.len = len_of k := by
  intro c hc
  unfold contribs at hc
  rw [List.mem_flatMap] at hc
  obtain ⟨o, ho, hco⟩ := hc
  unfold contribsOf at hco
  by_cases hp : passFilter th o
  · rw [if_pos hp, List.mem_append] at hco
    rcases hco with h | h
    · by_cases hid : o.a.id = k
      · rw [if_pos hid, List.mem_singleton] at h
        subst h
        simpa [sideContrib, hid ▸ (hlen o ho).1] using (hid ▸ (hlen o ho).1)
      · rw [if_neg hid] at h
        exact absurd h (List.not_mem_nil c)
    · by_cases hid : o.b.id = k
      · rw [if_pos hid, List.mem_singleton] at h
        subst h
        simpa [sideContrib, hid ▸ (hlen o ho).2] using (hid ▸ (hlen o ho).2)
      · rw [if_neg hid] at h
        exact absurd h (List.not_mem_nil c)
  · rw [if_neg hp] at hco
    exact absurd hco (List.not_mem_nil c)

lemma contribs_perm (th : Int) {os os' : List Overlap} (p : os.Perm os')
    (k : Int) : (contribs th os k).Perm (contribs th os' k) :=
  p.flatMap_right (fun o => contribsOf th o k)

lemma updateEntry_count (info : ReadStatInfo) (s : Int) (i : ℚ) (g d : Int) :
    (updateEntry info s i g d).count = info.count + 1 := by
  simp only [updateEntry]
  split_ifs <;> rfl

/-- A record used in counterexamples: a passing overlap between two
distinct sequences 0 and 1. -/
def cexNormal : Overlap :=
  { a := ⟨0, 0, 1500, 1000⟩
    b := ⟨1, 0, 1500, 500⟩
    identity := 80
    alignedLength := 2000
    overhang := (-1, -1)
    loc := Loc.Normal }

/-- A record used in counterexamples: a passing self-overlap of sequence 0
(both sides carry id 0, as for a contig aligned against itself). -/
def cexSelf : Overlap :=
  { a := ⟨0, 0, 1500, 1000⟩
    b := ⟨0, 100, 1600, 1000⟩
    identity := 80
    alignedLength := 2000
    overhang := (-1, -1)
    loc := Loc.Normal }

lemma loc_normal_ne_abnormal : (Loc.Normal = Loc.Abnormal) = False :=
  eq_false (fun h => Loc.noConfusion h)

/-- Claim C1, counterexample: the claim fails as stated.  Splitting the
two-record stream `[cexNormal, cexSelf]` *in order* into two worker
batches already changes the integer fields of id 0's entry: in the
single-accumulator baseline the self-overlap finds id 0 present and both
of its sides accumulate (`count = 3`), while in the batch containing only
the self-overlap the `b`-side assignment overwrites the `a`-side entry
(`bread` was looked up before the insertion), giving `count = 2` after
the merge. -/
theorem c1_counterexample :
    (parScan 75 [[cexNormal], [cexSelf]] 0).map intFields ≠
      (seqScan 75 [cexNormal, cexSelf] 0).map intFields := by
  norm_num [parScan, seqScan, scan_overlap, combine, combineEntry,
    updateEntry, newEntry, StatMap.empty, StatMap.set, passFilter,
    cexNormal, cexSelf, intFields, dtoi, IntView.mk.injEq,
    loc_normal_ne_abnormal]

/-- Claim C1 (amended): provided no record is a self-overlap (its two
sides carry distinct ids) and all records agree on each id's length, the
concurrent `StatReadInfo` computation — any partition of the record
multiset into worker batches, merged by `combine` in any order — yields a
per-id map whose integer fields (score, len, aligned, count, overhang,
oh_count) are identical to the single-threaded baseline's. -/
theorem c1_computeStats_order_independent (th : Int) (len_of : Int → Int)
    (batches : List (List Overlap)) (os : List Overlap)
    (hperm : batches.flatten.Perm os)
    (hself : ∀ o ∈ os, o.a.id ≠ o.b.id)
    (hlen : ∀ o ∈ os, o.a.len = len_of o.a.id ∧ o.b.len = len_of o.b.id)
    (k : Int) :
    (parScan th batches k).map intFields = (seqScan th os k).map intFields := by
  have hselfB : ∀ b ∈ batches, ∀ o ∈ b, o.a.id ≠ o.b.id := by
    intro b hb o ho
    exact hself o (hperm.mem_iff.mp (List.mem_flatten.mpr ⟨b, hb, ho⟩))
  rw [mapCanon_parScan th batches hselfB k, mapCanon_seqScan th os hself k]
  have hlenF : ∀ o ∈ batches.flatten,
      o.a.len = len_of o.a.id ∧ o.b.len = len_of o.b.id :=
    fun o ho => hlen o (hperm.mem_iff.mp ho)
  exact canon_perm (len_of k) (contribs_perm th hperm k)
    (contribs_len th batches.flatten len_of hlenF k)

/-- Claim C1, witness for the amended theorem at a concrete partition. -/
theorem c1_witness :
    (∀ o ∈ [cexNormal], o.a.id ≠ o.b.id) ∧
      (parScan 75 [[cexNormal]] 0).map intFields =
        (seqScan 75 [cexNormal] 0).map intFields :=
  ⟨by intro o ho; simp at ho; subst ho; simp [cexNormal],
    c1_computeStats_order_independent 75
      (fun k => if k = 0 then 1000 else 500) [[cexNormal]] [cexNormal]
      (by simp)
      (by intro o ho; simp at ho; subst ho; simp [cexNormal])
      (by intro o ho; simp at ho; subst ho; simp [cexNormal])
      0⟩

/-- Claim C2 (confirmed): an overlap record contributes to some id's
statistics iff it passes the filter `identity > identityFloor ∧
AlignedLength ≥ 2000 ∧ location ≠ Abnormal`; a failing record leaves
every id's entry unchanged, a passing record changes the entry of one of
its two ids (its `b`-side id), and no id other than the record's two ids
is ever touched. -/
theorem c2_scan_filter (th : Int) (m : StatMap) (o : Overlap) :
    (¬ passFilter th o → ∀ k, scan_overlap th m o k = m k) ∧
    (passFilter th o → scan_overlap th m o o.b.id ≠ m o.b.id) ∧
    (∀ k, k ≠ o.a.id → k ≠ o.b.id → scan_overlap th m o k = m k) := by
  refine ⟨?_, ?_, ?_⟩
  · intro hp k
    rw [scan_eval_notPass th m o hp]
  · intro hp
    by_cases hab : o.a.id = o.b.id
    · unfold scan_overlap
      rw [if_pos hp]
      cases hmb : m o.b.id with
      | none =>
        have hma : m o.a.id = none := by rw [hab, hmb]
        simp only [hma, hmb, Option.isSome_none, Bool.false_eq_true, if_false,
          StatMap.set, if_pos rfl]
        simp
      | some info =>
        have hma : m o.a.id = some info := by rw [hab, hmb]
        simp only [hma, hmb, Option.isSome_some, if_true, StatMap.set, hab,
          if_pos rfl]
        intro h
        injection h with h
        have hc := congrArg ReadStatInfo.count h
        rw [updateEntry_count, updateEntry_count] at hc
        omega
    · rw [scan_eval_b th m o hp hab]
      cases hmb : m o.b.id with
      | none => simp
      | some info =>
        intro h
        injection h with h
        have hc := congrArg ReadStatInfo.count h
        rw [updateEntry_count] at hc
        omega
  · intro k hka hkb
    exact scan_eval_other th m o k hka hkb

/-- Claim C2, witness: a concrete passing record changes its `b`-id's
entry; a concrete failing record (identity at the floor) changes nothing. -/
theorem c2_witness :
    passFilter 75 cexNormal ∧
      scan_overlap 75 StatMap.empty cexNormal cexNormal.b.id ≠
        StatMap.empty cexNormal.b.id :=
  ⟨by refine ⟨by norm_num [cexNormal], by norm_num [cexNormal], by simp [cexNormal]⟩,
    (c2_scan_filter 75 StatMap.empty cexNormal).2.1
      (by refine ⟨by norm_num [cexNormal], by norm_num [cexNormal], by simp [cexNormal]⟩)⟩

/-! ### The length-invariant assertions (claim C4)

`scan_overlap` asserts `aread->second.len == o.a_.len` and
`bread->second.len == o.b_.len` (the latter only when `bread` was found);
`combine` asserts only `iter->second.len >= i.second.len`.  The checked
variants return `none` when an assertion fires. -/

/-- The two equality assertions of `scan_overlap` on one record
(`true` = no assertion fires). -/
def scanAssertB (th : Int) (m : StatMap) (o : Overlap) : Bool :=
  !(decide (passFilter th o)) ||
    ((match m o.a.id with
      | some info => decide (info.len = o.a.len)
      | none => true) &&
     (match m o.b.id with
      | some info => decide (info.len = o.b.len)
      | none => true))

/-- The `>=` assertion of `combine`, checked over the key list covering
the local accumulator's domain. -/
def combineAssertB (shared lo : StatMap) (keys : List Int) : Bool :=
  keys.all (fun k =>
    match lo k, shared k with
    | some li, some si => decide (li.len ≤ si.len)
    | _, _ => true)

/-- The ids an overlap list can have touched (covers the domain of the
accumulator its scan produces). -/
def idsOf (os : List Overlap) : List Int :=
  os.flatMap (fun o => [o.a.id, o.b.id])

/-- Single-accumulator scan with the `scan_overlap` assertions armed. -/
def seqScanChecked (th : Int) (os : List Overlap) : Option StatMap :=
  os.foldl
    (fun acc o =>
      match acc with
      | some m => if scanAssertB th m o then some (scan_overlap th m o) else none
      | none => none)
    (some StatMap.empty)

/-- Concurrent scan with both the `scan_overlap` and the `combine`
assertions armed. -/
def parScanChecked (th : Int) (batches : List (List Overlap)) : Option StatMap :=
  batches.foldl
    (fun acc b =>
      match acc, seqScanChecked th b with
      | some shared, some lo =>
        if combineAssertB shared lo (idsOf b) then some (combine shared lo) else none
      | _, _ => none)
    (some StatMap.empty)

/-- A map whose every entry records the invariant length of its id. -/
def MapLen (len_of : Int → Int) (m : StatMap) : Prop :=
  ∀ k info, m k = some info → info.len = len_of k

lemma updateEntry_len (info : ReadStatInfo) (s : Int) (i : ℚ) (g d : Int) :
    (updateEntry info s i g d).len = info.len := by
  simp only [updateEntry]
  split_ifs <;> rfl

lemma combineEntry_len (s l : ReadStatInfo) :
    (combineEntry s l).len = s.len := by
  simp only [combineEntry]
  split_ifs <;> rfl

lemma mapLen_empty (len_of : Int → Int) : MapLen len_of StatMap.empty := by
  intro k info h
  exact Option.noConfusion h

lemma mapLen_set (len_of : Int → Int) (m : StatMap) (k0 : Int)
    (v : ReadStatInfo) (hm : MapLen len_of m) (hv : v.len = len_of k0) :
    MapLen len_of (m.set k0 v) := by
  intro k info h
  unfold StatMap.set at h
  split_ifs at h with hk
  · cases h
    rw [hv, hk]
  · exact hm k info h

lemma mapLen_scan (th : Int) (len_of : Int → Int) (m : StatMap) (o : Overlap)
    (hm : MapLen len_of m)
    (ho : o.a.len = len_of o.a.id ∧ o.b.len = len_of o.b.id) :
    MapLen len_of (scan_overlap th m o) := by
  unfold scan_overlap
  by_cases hp : passFilter th o
  · rw [if_pos hp]
    have hA : MapLen len_of
        (match m o.a.id with
          | some info => m.set o.a.id (updateEntry info
              (dtoi (o.identity * (o.alignedLength : ℚ))) o.identity
              o.overhang.1 (o.a.end_ - o.a.start))
          | none => m.set o.a.id (newEntry o.a
              (dtoi (o.identity * (o.alignedLength : ℚ))) o.identity
              o.overhang.1)) := by
      cases hma : m o.a.id with
      | some info =>
        exact mapLen_set len_of m o.a.id _ hm
          (by rw [updateEntry_len, hm o.a.id info hma])
      | none =>
        exact mapLen_set len_of m o.a.id _ hm
          (by simp only [newEntry]; exact ho.1)
    cases hbe : (m o.b.id).isSome with
    | false =>
      simp only [hbe, Bool.false_eq_true, if_false]
      exact mapLen_set len_of _ o.b.id _ hA (by simp only [newEntry]; exact ho.2)
    | true =>
      simp only [hbe, if_true]
      cases hm1b : (match m o.a.id with
          | some info => m.set o.a.id (updateEntry info
              (dtoi (o.identity * (o.alignedLength : ℚ))) o.identity
              o.overhang.1 (o.a.end_ - o.a.start))
          | none => m.set o.a.id (newEntry o.a
              (dtoi (o.identity * (o.alignedLength : ℚ))) o.identity
              o.overhang.1)) o.b.id with
      | none => simp only [hm1b]; exact hA
      | some info =>
        simp only [hm1b]
        exact mapLen_set len_of _ o.b.id _ hA
          (by rw [updateEntry_len, hA o.b.id info hm1b])
  · rw [if_neg hp]
    exact hm

lemma mapLen_combine (len_of : Int → Int) (s l : StatMap)
    (hs : MapLen len_of s) (hl : MapLen len_of l) :
    MapLen len_of (combine s l) := by
  intro k info h
  unfold combine at h
  cases hlk : l k with
  | none =>
    rw [hlk] at h
    exact hs k info h
  | some li =>
    rw [hlk] at h
    cases hsk : s k with
    | none =>
      rw [hsk] at h
      cases h
      exact hl k _ hlk
    | some si =>
      rw [hsk] at h
      cases h
      rw [combineEntry_len]
      exact hs k si hsk

lemma scanAssertB_true (th : Int) (len_of : Int → Int) (m : StatMap)
    (o : Overlap) (hm : MapLen len_of m)
    (ho : o.a.len = len_of o.a.id ∧ o.b.len = len_of o.b.id) :
    scanAssertB th m o = true := by
  unfold scanAssertB
  cases hma : m o.a.id <;> cases hmb : m o.b.id <;>
    simp_all [hm o.a.id, hm o.b.id, ho.1, ho.2]

lemma combineAssertB_true (len_of : Int → Int) (s l : StatMap)
    (keys : List Int) (hs : MapLen len_of s) (hl : MapLen len_of l) :
    combineAssertB s l keys = true := by
  unfold combineAssertB
  rw [List.all_eq_true]
  intro k _
  cases hlk : l k <;> cases hsk : s k <;> simp_all
  rw [hl k _ hlk, hs k _ hsk]

lemma seqScanChecked_aux (th : Int) (len_of : Int → Int) (os : List Overlap) :
    ∀ m : StatMap, MapLen len_of m →
      (∀ o ∈ os, o.a.len = len_of o.a.id ∧ o.b.len = len_of o.b.id) →
      os.foldl
          (fun acc o =>
            match acc with
            | some m => if scanAssertB th m o then some (scan_overlap th m o) else none
            | none => none)
          (some m) = some (os.foldl (scan_overlap th) m) ∧
        MapLen len_of (os.foldl (scan_overlap th) m) := by
  induction os with
  | nil =>
    intro m hm _
    exact ⟨rfl, hm⟩
  | cons o os ih =>
    intro m hm hlen
    have ho := hlen o (by simp)
    have hstep : scanAssertB th m o = true := scanAssertB_true th len_of m o hm ho
    have hm' : MapLen len_of (scan_overlap th m o) := mapLen_scan th len_of m o hm ho
    have := ih (scan_overlap th m o) hm' (fun o' ho' => hlen o' (by simp [ho']))
    simpa [hstep] using this

lemma seqScanChecked_eq (th : Int) (len_of : Int → Int) (os : List Overlap)
    (hlen : ∀ o ∈ os, o.a.len = len_of o.a.id ∧ o.b.len = len_of o.b.id) :
    seqScanChecked th os = some (seqScan th os) ∧ MapLen len_of (seqScan th os) := by
  have := seqScanChecked_aux th len_of os StatMap.empty (mapLen_empty len_of) hlen
  exact ⟨this.1, this.2⟩

lemma parScanChecked_aux (th : Int) (len_of : Int → Int)
    (batches : List (List Overlap)) :
    ∀ acc : StatMap, MapLen len_of acc →
      (∀ b ∈ batches, ∀ o ∈ b, o.a.len = len_of o.a.id ∧ o.b.len = len_of o.b.id) →
      batches.foldl
          (fun acc b =>
            match acc, seqScanChecked th b with
            | some shared, some lo =>
              if combineAssertB shared lo (idsOf b) then some (combine shared lo) else none
            | _, _ => none)
          (some acc) = some ((batches.map (seqScan th)).foldl combine acc) ∧
        MapLen len_of ((batches.map (seqScan th)).foldl combine acc) := by
  induction batches with
  | nil =>
    intro acc hacc _
    exact ⟨rfl, hacc⟩
  | cons b bs ih =>
    intro acc hacc hlen
    have hb := seqScanChecked_eq th len_of b (hlen b (by simp))
    have hcb : combineAssertB acc (seqScan th b) (idsOf b) = true :=
      combineAssertB_true len_of acc (seqScan th b) (idsOf b) hacc hb.2
    have hacc' : MapLen len_of (combine acc (seqScan th b)) :=
      mapLen_combine len_of acc (seqScan th b) hacc hb.2
    have := ih (combine acc (seqScan th b)) hacc'
      (fun b' hb' o ho => hlen b' (by simp [hb']) o ho)
    simpa [hb.1, hcb] using this

/-- Claim C4 (amended): on any input satisfying the length invariant the
assertions of `scan_overlap` and of `combine` hold — the checked engines
run to completion and return exactly the unchecked results.  (The
converse direction of the original claim is refuted by
`c4_counterexample`.) -/
theorem c4_asserts_hold_on_invariant (th : Int) (len_of : Int → Int)
    (os : List Overlap) (batches : List (List Overlap))
    (hlen : ∀ o ∈ os, o.a.len = len_of o.a.id ∧ o.b.len = len_of o.b.id)
    (hlenB : ∀ b ∈ batches, ∀ o ∈ b,
      o.a.len = len_of o.a.id ∧ o.b.len = len_of o.b.id) :
    seqScanChecked th os = some (seqScan th os) ∧
      parScanChecked th batches = some (parScan th batches) := by
  refine ⟨(seqScanChecked_eq th len_of os hlen).1, ?_⟩
  have := parScanChecked_aux th len_of batches StatMap.empty
    (mapLen_empty len_of) hlenB
  unfold parScanChecked parScan
  exact this.1

/-- Two records that disagree on sequence 0's length (5000 vs 4000). -/
def cexBig : Overlap :=
  { a := ⟨0, 0, 1500, 5000⟩
    b := ⟨1, 0, 1500, 500⟩
    identity := 80
    alignedLength := 2000
    overhang := (-1, -1)
    loc := Loc.Normal }

/-- See `cexBig`: same ids, mismatched `a`-side length. -/
def cexSmall : Overlap :=
  { a := ⟨0, 0, 1500, 4000⟩
    b := ⟨1, 0, 1500, 500⟩
    identity := 80
    alignedLength := 2000
    overhang := (-1, -1)
    loc := Loc.Normal }

/-- Claim C4, counterexample: the engine does *not* fail on every
invariant-violating input.  `cexBig` and `cexSmall` reference the same
sequence id 0 with lengths 5000 ≠ 4000, yet when they are scanned in
separate worker batches no scan assertion ever compares them and the
`combine` assertion — `>=`, not equality — passes because the batch
merged first carried the larger length; the engine completes and silently
keeps the first-seen length 5000. -/
theorem c4_counterexample :
    cexBig.a.id = cexSmall.a.id ∧ cexBig.a.len ≠ cexSmall.a.len ∧
      (parScanChecked 75 [[cexBig], [cexSmall]]).isSome = true ∧
      ((parScan 75 [[cexBig], [cexSmall]] 0).map ReadStatInfo.len) = some 5000 := by
  refine ⟨rfl, by norm_num [cexBig, cexSmall], ?_, ?_⟩
  · norm_num [parScanChecked, seqScanChecked, scanAssertB, combineAssertB,
      idsOf, scan_overlap, combine, combineEntry, updateEntry, newEntry,
      StatMap.empty, StatMap.set, passFilter, cexBig, cexSmall, dtoi,
      loc_normal_ne_abnormal]
  · norm_num [parScan, seqScan, scan_overlap, combine, combineEntry,
      updateEntry, newEntry, StatMap.empty, StatMap.set, passFilter,
      cexBig, cexSmall, dtoi, loc_normal_ne_abnormal]

/-- Claim C4, witness for the amended theorem on a concrete
invariant-satisfying input. -/
theorem c4_witness :
    (∀ o ∈ [cexNormal, cexNormal], o.a.len = 1000 ∧ o.b.len = 500) ∧
      seqScanChecked 75 [cexNormal, cexNormal] =
        some (seqScan 75 [cexNormal, cexNormal]) ∧
      parScanChecked 75 [[cexNormal], [cexNormal]] =
        some (parScan 75 [[cexNormal], [cexNormal]]) :=
  ⟨by intro o ho; simp at ho; subst ho; simp [cexNormal],
    c4_asserts_hold_on_invariant 75 (fun k => if k = 0 then 1000 else 500)
      [cexNormal, cexNormal] [[cexNormal], [cexNormal]]
      (by intro o ho; simp at ho; subst ho; simp [cexNormal])
      (by intro b hb o ho; simp at hb; subst hb; simp at ho; subst ho
          simp [cexNormal])⟩

/-! ### Robust threshold derivation (claims C3 and C9)

`ComputeMedianAbsoluteDeviation` lives in a utility file outside the
repository slice; it is modelled from the spec as a weighted median and a
weighted median absolute deviation.  The `AutoSelect*` functions below
follow the source (`contig_bridge.cpp` lines 199–275): they build the
weighted samples and combine median and MAD with the hard-coded
multiplier. -/

/-- Insertion step of sorting samples by value. -/
def insertQ (x : ℚ × ℚ) : List (ℚ × ℚ) → List (ℚ × ℚ)
  | [] => [x]
  | y :: ys => if x.1 ≤ y.1 then x :: y :: ys else y :: insertQ x ys

/-- Sort samples by value (insertion sort). -/
def sortQ (l : List (ℚ × ℚ)) : List (ℚ × ℚ) := l.foldr insertQ []

/-- Walk the sorted samples accumulating weight until half the total
weight is reached; the last sample answers if none does earlier. -/
def wmGo (half : ℚ) : List (ℚ × ℚ) → ℚ → ℚ
  | [], _ => 0
  | [x], _ => x.1
  | x :: y :: ys, acc =>
    if half ≤ acc + x.2 then x.1 else wmGo half (y :: ys) (acc + x.2)

/-- Modelled from the spec: the weighted median of `(value, weight)`
samples — the smallest sample value at which the cumulative weight
reaches half the total weight (`ComputeMedianAbsoluteDeviation` is in a
utility file not under the repository slice). -/
def weightedMedian (samples : List (ℚ × ℚ)) : ℚ :=
  let s := sortQ samples
  wmGo ((s.map Prod.snd).sum / 2) s 0

/-- Modelled from the spec: the weighted median absolute deviation —
the weighted median of the absolute deviations from the weighted
median. -/
def weightedMAD (samples : List (ℚ × ℚ)) : ℚ :=
  weightedMedian (samples.map (fun p => (|p.1 - weightedMedian samples|, p.2)))

/-- Modelled from the spec: `ComputeMedianAbsoluteDeviation(samples,
median, mad)`. -/
def ComputeMedianAbsoluteDeviation (samples : List (ℚ × ℚ)) : ℚ × ℚ :=
  (weightedMedian samples, weightedMAD samples)

/-- `AutoSelectCtg2ctgMinIdentity`: samples `(identity, score/1000)`,
threshold `median - 6*1.4826*mad`. -/
def AutoSelectCtg2ctgMinIdentity (readInfos : List (Int × ReadStatInfo)) : ℚ :=
  let idents := readInfos.map (fun kv => (kv.2.identity, (kv.2.score : ℚ) / 1000))
  let md := ComputeMedianAbsoluteDeviation idents
  md.1 - 6 * (14826 / 10000) * md.2

/-- `AutoSelectCtg2ctgMaxOverhang`: samples `(overhang, len/100)`,
threshold `(int)(median + 6*1.4826*mad)`. -/
def AutoSelectCtg2ctgMaxOverhang (readInfos : List (Int × ReadStatInfo)) : Int :=
  let overhangs := readInfos.map (fun kv => ((kv.2.overhang : ℚ), (kv.2.len : ℚ) / 100))
  let md := ComputeMedianAbsoluteDeviation overhangs
  dtoi (md.1 + 6 * (14826 / 10000) * md.2)

/-- `AutoSelectRead2ctgMinIdentity`: samples `(identity, score/1000)`,
threshold `median - 3*1.4826*mad`. -/
def AutoSelectRead2ctgMinIdentity (readInfos : List (Int × ReadStatInfo)) : ℚ :=
  let idents := readInfos.map (fun kv => (kv.2.identity, (kv.2.score : ℚ) / 1000))
  let md := ComputeMedianAbsoluteDeviation idents
  md.1 - 3 * (14826 / 10000) * md.2

/-- `AutoSelectRead2ctgMaxOverhang`: samples `(overhang, score/100)`,
threshold `(int)(median + 3*1.4826*mad)`. -/
def AutoSelectRead2ctgMaxOverhang (readInfos : List (Int × ReadStatInfo)) : Int :=
  let overhangs := readInfos.map (fun kv => ((kv.2.overhang : ℚ), (kv.2.score : ℚ) / 100))
  let md := ComputeMedianAbsoluteDeviation overhangs
  dtoi (md.1 + 3 * (14826 / 10000) * md.2)

/-- The spec's identity samples: `(identity, score/1000)` per map entry. -/
def identitySamples (readInfos : List (Int × ReadStatInfo)) : List (ℚ × ℚ) :=
  readInfos.map (fun kv => (kv.2.identity, (kv.2.score : ℚ) / 1000))

/-- The spec's overhang samples for the contig-to-contig call:
`(overhang, len/100)`. -/
def overhangSamplesByLen (readInfos : List (Int × ReadStatInfo)) : List (ℚ × ℚ) :=
  readInfos.map (fun kv => ((kv.2.overhang : ℚ), (kv.2.len : ℚ) / 100))

/-- The spec's overhang samples for the read-to-contig call:
`(overhang, score/100)`. -/
def overhangSamplesByScore (readInfos : List (Int × ReadStatInfo)) : List (ℚ × ℚ) :=
  readInfos.map (fun kv => ((kv.2.overhang : ℚ), (kv.2.score : ℚ) / 100))

/-- The spec's identity-threshold formula with an explicit MAD
multiplier `k`. -/
def identityThreshold (k : ℚ) (samples : List (ℚ × ℚ)) : ℚ :=
  weightedMedian samples - k * (14826 / 10000) * weightedMAD samples

/-- The spec's overhang-threshold formula with an explicit MAD
multiplier `k`, truncated to an integer. -/
def overhangThreshold (k : ℚ) (samples : List (ℚ × ℚ)) : Int :=
  dtoi (weightedMedian samples + k * (14826 / 10000) * weightedMAD samples)

/-- Claim C3 (confirmed): the auto-selected identity thresholds equal
`weightedMedian - k*1.4826*weightedMAD` over `(identity, score/1000)`
samples with k = 3 for the read-to-contig call and k = 6 for the
contig-to-contig call; the overhang thresholds equal
`weightedMedian + k*1.4826*weightedMAD` truncated to an integer, over
`(overhang, len/100)` samples for the contig-to-contig call and
`(overhang, score/100)` samples for the read-to-contig call, with the
same k values. -/
theorem c3_autoselect_formulas (l : List (Int × ReadStatInfo)) :
    AutoSelectCtg2ctgMinIdentity l =
        weightedMedian (identitySamples l) -
          6 * (14826 / 10000) * weightedMAD (identitySamples l) ∧
      AutoSelectRead2ctgMinIdentity l =
        weightedMedian (identitySamples l) -
          3 * (14826 / 10000) * weightedMAD (identitySamples l) ∧
      AutoSelectCtg2ctgMaxOverhang l =
        dtoi (weightedMedian (overhangSamplesByLen l) +
          6 * (14826 / 10000) * weightedMAD (overhangSamplesByLen l)) ∧
      AutoSelectRead2ctgMaxOverhang l =
        dtoi (weightedMedian (overhangSamplesByScore l) +
          3 * (14826 / 10000) * weightedMAD (overhangSamplesByScore l)) :=
  ⟨rfl, rfl, rfl, rfl⟩

lemma mem_insertQ (x a : ℚ × ℚ) : ∀ l : List (ℚ × ℚ),
    a ∈ insertQ x l → a = x ∨ a ∈ l
  | [], h => by simpa [insertQ] using h
  | y :: ys, h => by
    unfold insertQ at h
    split_ifs at h with hle
    · simpa using h
    · rcases List.mem_cons.mp h with h | h
      · exact Or.inr (by simp [h])
      · rcases mem_insertQ x a ys h with h | h
        · exact Or.inl h
        · exact Or.inr (by simp [h])

lemma mem_sortQ (a : ℚ × ℚ) : ∀ l : List (ℚ × ℚ), a ∈ sortQ l → a ∈ l
  | [], h => by simpa [sortQ] using h
  | x :: xs, h => by
    unfold sortQ at h
    rcases mem_insertQ x a (xs.foldr insertQ []) h with h | h
    · simp [h]
    · exact List.mem_cons_of_mem _ (mem_sortQ a xs h)

lemma wmGo_mem (half : ℚ) : ∀ (l : List (ℚ × ℚ)) (acc : ℚ),
    wmGo half l acc = 0 ∨ ∃ p ∈ l, wmGo half l acc = p.1
  | [], _ => Or.inl rfl
  | [x], _ => Or.inr ⟨x, by simp, rfl⟩
  | x :: y :: ys, acc => by
    by_cases h : half ≤ acc + x.2
    · exact Or.inr ⟨x, by simp, by simp [wmGo, h]⟩
    · rcases wmGo_mem half (y :: ys) (acc + x.2) with h0 | ⟨p, hp, he⟩
      · exact Or.inl (by simp [wmGo, h, h0])
      · exact Or.inr ⟨p, List.mem_cons_of_mem _ hp, by simp [wmGo, h, he]⟩

lemma weightedMedian_nonneg (samples : List (ℚ × ℚ))
    (h : ∀ p ∈ samples, 0 ≤ p.1) : 0 ≤ weightedMedian samples := by
  unfold weightedMedian
  rcases wmGo_mem (((sortQ samples).map Prod.snd).sum / 2) (sortQ samples) 0 with
    h0 | ⟨p, hp, he⟩
  · rw [h0]
  · rw [he]
    exact h p (mem_sortQ p samples hp)

lemma weightedMAD_nonneg (samples : List (ℚ × ℚ)) : 0 ≤ weightedMAD samples := by
  unfold weightedMAD
  refine weightedMedian_nonneg _ ?_
  intro p hp
  rw [List.mem_map] at hp
  obtain ⟨q, _, hq⟩ := hp
  rw [← hq]
  exact abs_nonneg _

lemma dtoi_mono {q1 q2 : ℚ} (h : q1 ≤ q2) : dtoi q1 ≤ dtoi q2 := by
  unfold dtoi
  split_ifs with h1 h2 h2
  · exact Int.floor_le_floor h
  · exact absurd (le_trans h1 h) h2
  · have ha : (⌈q1⌉ : Int) ≤ 0 := Int.ceil_le.mpr (by push_cast; exact le_of_not_le h1)
    have hb : (0 : Int) ≤ ⌊q2⌋ := Int.floor_nonneg.mpr h2
    omega
  · exact Int.ceil_le_ceil h

/-- Claim C9 (confirmed): the auto-selection formulas are instances (at
k = 6 and k = 3) of the k-parameterised thresholds, and those are
monotone in the MAD multiplier: a larger k never increases the identity
threshold and never decreases the overhang threshold. -/
theorem c9_threshold_monotone (l : List (Int × ReadStatInfo)) (k1 k2 : ℚ)
    (h : k1 ≤ k2) :
    AutoSelectCtg2ctgMinIdentity l = identityThreshold 6 (identitySamples l) ∧
      AutoSelectRead2ctgMinIdentity l = identityThreshold 3 (identitySamples l) ∧
      AutoSelectCtg2ctgMaxOverhang l = overhangThreshold 6 (overhangSamplesByLen l) ∧
      AutoSelectRead2ctgMaxOverhang l = overhangThreshold 3 (overhangSamplesByScore l) ∧
      identityThreshold k2 (identitySamples l) ≤
        identityThreshold k1 (identitySamples l) ∧
      overhangThreshold k1 (overhangSamplesByLen l) ≤
        overhangThreshold k2 (overhangSamplesByLen l) ∧
      overhangThreshold k1 (overhangSamplesByScore l) ≤
        overhangThreshold k2 (overhangSamplesByScore l) := by
  refine ⟨rfl, rfl, rfl, rfl, ?_, ?_, ?_⟩
  · unfold identityThreshold
    have hmad := weightedMAD_nonneg (identitySamples l)
    have : k1 * (14826 / 10000) * weightedMAD (identitySamples l) ≤
        k2 * (14826 / 10000) * weightedMAD (identitySamples l) := by
      apply mul_le_mul_of_nonneg_right _ hmad
      apply mul_le_mul_of_nonneg_right h
      norm_num
    linarith
  · apply dtoi_mono
    have hmad := weightedMAD_nonneg (overhangSamplesByLen l)
    have : k1 * (14826 / 10000) * weightedMAD (overhangSamplesByLen l) ≤
        k2 * (14826 / 10000) * weightedMAD (overhangSamplesByLen l) := by
      apply mul_le_mul_of_nonneg_right _ hmad
      apply mul_le_mul_of_nonneg_right h
      norm_num
    linarith
  · apply dtoi_mono
    have hmad := weightedMAD_nonneg (overhangSamplesByScore l)
    have : k1 * (14826 / 10000) * weightedMAD (overhangSamplesByScore l) ≤
        k2 * (14826 / 10000) * weightedMAD (overhangSamplesByScore l) := by
      apply mul_le_mul_of_nonneg_right _ hmad
      apply mul_le_mul_of_nonneg_right h
      norm_num
    linarith

/-- Claim C9, witness: monotonicity at the code's own multipliers
3 ≤ 6 on a one-entry stats map. -/
theorem c9_witness :
    identityThreshold 6 (identitySamples [(0, {})]) ≤
      identityThreshold 3 (identitySamples [(0, {})]) :=
  (c9_threshold_monotone [(0, {})] 3 6 (by norm_num)).2.2.2.2.1

/-! ### The threshold-parameter phase of `Run` (claim C10) -/

/-- The four tunable thresholds `Run` may auto-select. -/
structure BridgeParams where
  read2ctg_min_identity : ℚ
  read2ctg_max_overhang : Int
  ctg2ctg_min_identity : ℚ
  ctg2ctg_max_overhang : Int
  deriving DecidableEq, Repr

/-- `AutoSelectRead2ctgParams`: each read-to-contig parameter is
overwritten only if it is itself negative (source lines 225–248; the
stats map is passed in, standing for `StatReadInfo(read2ctg_file_, 75,
500)`). -/
def AutoSelectRead2ctgParams (p : BridgeParams)
    (readInfos : List (Int × ReadStatInfo)) : BridgeParams :=
  let p1 := if p.read2ctg_min_identity < 0
    then { p with read2ctg_min_identity := AutoSelectRead2ctgMinIdentity readInfos }
    else p
  if p1.read2ctg_max_overhang < 0
    then { p1 with read2ctg_max_overhang := AutoSelectRead2ctgMaxOverhang readInfos }
    else p1

/-- `AutoSelectCtg2ctgParams`: each contig-to-contig parameter is
overwritten only if it is itself negative (source lines 184–196; the
stats map stands for `StatReadInfo(ctg2ctg_file_, 95, 250)`). -/
def AutoSelectCtg2ctgParams (p : BridgeParams)
    (readInfos : List (Int × ReadStatInfo)) : BridgeParams :=
  let p1 := if p.ctg2ctg_min_identity < 0
    then { p with ctg2ctg_min_identity := AutoSelectCtg2ctgMinIdentity readInfos }
    else p
  if p1.ctg2ctg_max_overhang < 0
    then { p1 with ctg2ctg_max_overhang := AutoSelectCtg2ctgMaxOverhang readInfos }
    else p1

/-- The parameter phase of `Run` (source lines 45–53): read-to-contig
auto-selection runs when that pair contains a negative value; the
contig-to-contig auto-selection runs only when a ctg2ctg file was given
and that pair contains a negative value. -/
def runSelectParams (ctg2ctgGiven : Bool) (p : BridgeParams)
    (r2cInfos c2cInfos : List (Int × ReadStatInfo)) : BridgeParams :=
  let p1 := if p.read2ctg_min_identity < 0 ∨ p.read2ctg_max_overhang < 0
    then AutoSelectRead2ctgParams p r2cInfos
    else p
  if ctg2ctgGiven = true ∧
      (p1.ctg2ctg_min_identity < 0 ∨ p1.ctg2ctg_max_overhang < 0)
    then AutoSelectCtg2ctgParams p1 c2cInfos
    else p1

lemma autoR2c_c2c_min (p : BridgeParams) (r : List (Int × ReadStatInfo)) :
    (AutoSelectRead2ctgParams p r).ctg2ctg_min_identity = p.ctg2ctg_min_identity := by
  unfold AutoSelectRead2ctgParams
  dsimp only
  split_ifs <;> rfl

lemma autoR2c_c2c_max (p : BridgeParams) (r : List (Int × ReadStatInfo)) :
    (AutoSelectRead2ctgParams p r).ctg2ctg_max_overhang = p.ctg2ctg_max_overhang := by
  unfold AutoSelectRead2ctgParams
  dsimp only
  split_ifs <;> rfl

lemma autoR2c_r2c_min (p : BridgeParams) (r : List (Int × ReadStatInfo))
    (h : 0 ≤ p.read2ctg_min_identity) :
    (AutoSelectRead2ctgParams p r).read2ctg_min_identity = p.read2ctg_min_identity := by
  unfold AutoSelectRead2ctgParams
  dsimp only
  split_ifs with ha hb hb <;> first | rfl | linarith

lemma autoR2c_r2c_max (p : BridgeParams) (r : List (Int × ReadStatInfo))
    (h : 0 ≤ p.read2ctg_max_overhang) :
    (AutoSelectRead2ctgParams p r).read2ctg_max_overhang = p.read2ctg_max_overhang := by
  unfold AutoSelectRead2ctgParams
  dsimp only
  split_ifs with ha hb hb <;> first | rfl | (simp at hb; omega)

lemma autoC2c_r2c_min (p : BridgeParams) (c : List (Int × ReadStatInfo)) :
    (AutoSelectCtg2ctgParams p c).read2ctg_min_identity = p.read2ctg_min_identity := by
  unfold AutoSelectCtg2ctgParams
  dsimp only
  split_ifs <;> rfl

lemma autoC2c_r2c_max (p : BridgeParams) (c : List (Int × ReadStatInfo)) :
    (AutoSelectCtg2ctgParams p c).read2ctg_max_overhang = p.read2ctg_max_overhang := by
  unfold AutoSelectCtg2ctgParams
  dsimp only
  split_ifs <;> rfl

lemma autoC2c_c2c_min (p : BridgeParams) (c : List (Int × ReadStatInfo))
    (h : 0 ≤ p.ctg2ctg_min_identity) :
    (AutoSelectCtg2ctgParams p c).ctg2ctg_min_identity = p.ctg2ctg_min_identity := by
  unfold AutoSelectCtg2ctgParams
  dsimp only
  split_ifs with ha hb hb <;> first | rfl | linarith

lemma autoC2c_c2c_max (p : BridgeParams) (c : List (Int × ReadStatInfo))
    (h : 0 ≤ p.ctg2ctg_max_overhang) :
    (AutoSelectCtg2ctgParams p c).ctg2ctg_max_overhang = p.ctg2ctg_max_overhang := by
  unfold AutoSelectCtg2ctgParams
  dsimp only
  split_ifs with ha hb hb <;> first | rfl | (simp at hb; omega)

/-- Claim C10 (confirmed): a threshold supplied with a non-negative value
is never modified by `Run`'s parameter phase, and when no ctg2ctg file is
given the contig-to-contig parameters are untouched even if negative. -/
theorem c10_supplied_params_preserved (g : Bool) (p : BridgeParams)
    (r c : List (Int × ReadStatInfo)) :
    (0 ≤ p.read2ctg_min_identity →
      (runSelectParams g p r c).read2ctg_min_identity = p.read2ctg_min_identity) ∧
    (0 ≤ p.read2ctg_max_overhang →
      (runSelectParams g p r c).read2ctg_max_overhang = p.read2ctg_max_overhang) ∧
    (0 ≤ p.ctg2ctg_min_identity →
      (runSelectParams g p r c).ctg2ctg_min_identity = p.ctg2ctg_min_identity) ∧
    (0 ≤ p.ctg2ctg_max_overhang →
      (runSelectParams g p r c).ctg2ctg_max_overhang = p.ctg2ctg_max_overhang) ∧
    (g = false →
      (runSelectParams g p r c).ctg2ctg_min_identity = p.ctg2ctg_min_identity) ∧
    (g = false →
      (runSelectParams g p r c).ctg2ctg_max_overhang = p.ctg2ctg_max_overhang) := by
  unfold runSelectParams
  dsimp only
  refine ⟨?_, ?_, ?_, ?_, ?_, ?_⟩ <;> intro h <;>
    split_ifs with hA hB hB <;>
      simp_all [autoR2c_c2c_min, autoR2c_c2c_max, autoC2c_r2c_min,
        autoC2c_r2c_max, autoR2c_r2c_min, autoR2c_r2c_max,
        autoC2c_c2c_min, autoC2c_c2c_max]

/-- Claim C10, witness: a fully supplied (non-negative) parameter set is
returned unchanged. -/
theorem c10_witness :
    (0 : ℚ) ≤ (97 : ℚ) ∧
      (runSelectParams true ⟨97, 500, 95, 250⟩ [] []).read2ctg_min_identity = 97 :=
  ⟨by norm_num,
    (c10_supplied_params_preserved true ⟨97, 500, 95, 250⟩ [] []).1 (by norm_num)⟩

/-! ### The output stage `SaveBridgedContigs` (claims C5–C8)

The sequence store, graph accessors (`GetPaths`, `GetEdge`,
`GetContained`), `Seq::EndIdToId` and `Seq::ReverseComplement` are
declared outside the repository slice and are modelled from the spec;
the entry collection, sorting, stitching loop, minimum-length filter and
file handling follow `SaveBridgedContigs` (source lines 102–176). -/

/-- Modelled from the spec: a filler sequence span recorded on an edge
(one element of the `SeqArea` list), resolvable to a sequence by the
store's `GetSeq(sa)` overload. -/
structure SeqArea where
  id : Int
  start : Int
  end_ : Int
  deriving DecidableEq, Repr

/-- Modelled from the spec: the edge data the output stage reads from the
graph — `LinkLength()` and `GetSeqArea()`. -/
structure ContigEdge where
  linkLength : Int
  seqArea : List SeqArea
  deriving DecidableEq, Repr

/-- Modelled from the spec: the sequence store interface used by
`SaveBridgedContigs` (`GetSeq`, the `GetSeq` overload on a `SeqArea`,
`GetSeqLength`, `IdToName`). -/
structure ReadStore where
  getSeq : Int → String
  getAreaSeq : SeqArea → String
  getSeqLength : Int → Int
  idToName : Int → String

/-- Modelled from the spec: `Seq::EndIdToId` — an end id encodes
`(SequenceId, orientation)`; `|e| - 1` recovers the sequence id, and a
positive end id denotes the reverse orientation (the source
reverse-complements when `path[0]->Id() > 0`). -/
def endIdToId (e : Int) : Int := (e.natAbs : Int) - 1

/-- Modelled from the spec: base complement used by
`Seq::ReverseComplement`. -/
def complementBase (ch : Char) : Char :=
  if ch = 'A' then 'T'
  else if ch = 'T' then 'A'
  else if ch = 'C' then 'G'
  else if ch = 'G' then 'C'
  else ch

/-- Modelled from the spec: `Seq::ReverseComplement`. -/
def ReverseComplement (s : String) : String :=
  String.mk (s.data.reverse.map complementBase)

/-- Consecutive node pairs of a path (the loop indices `(i-1, i)`). -/
def consPairs (p : List Int) : List (Int × Int) := p.zip p.tail

/-- Concatenation of a list of strings. -/
def joinStr (l : List String) : String := l.foldr (· ++ ·) ""

/-- The stitched sequence of a path (source lines 151–164): the first
node's contig sequence, reverse-complemented when its end id is positive,
then for each subsequent edge its `SeqArea` fillers in order. -/
def stitchSeq (store : ReadStore) (edges : Int → Int → ContigEdge) :
    List Int → String
  | [] => ""
  | n0 :: rest =>
    let s0 := store.getSeq (endIdToId n0)
    let s0 := if 0 < n0 then ReverseComplement s0 else s0
    (consPairs (n0 :: rest)).foldl
      (fun acc uv =>
        acc ++ joinStr (((edges uv.1 uv.2).seqArea).map store.getAreaSeq))
      s0

/-- The composite header of a path (`head` in the same loop): the first
node's name, then `"_" + name` for each filler span's source. -/
def stitchHead (store : ReadStore) (edges : Int → Int → ContigEdge) :
    List Int → String
  | [] => ""
  | n0 :: rest =>
    (consPairs (n0 :: rest)).foldl
      (fun acc uv =>
        acc ++ joinStr (((edges uv.1 uv.2).seqArea).map
          (fun sa => "_" ++ store.idToName sa.id)))
      (store.idToName (endIdToId n0))

/-- The sorting length of a bridged path (source lines 110–117):
first contig's length, then `+ LinkLength - previous contig's length`
per edge. -/
def pathSortLen (store : ReadStore) (edges : Int → Int → ContigEdge) :
    List Int → Int
  | [] => 0
  | n0 :: rest =>
    (consPairs (n0 :: rest)).foldl
      (fun acc uv =>
        acc + (edges uv.1 uv.2).linkLength - store.getSeqLength (endIdToId uv.1))
      (store.getSeqLength (endIdToId n0))

/-- One element of `all_contigs`: `{kind, ref, length}` where kind 1 is a
bridged path (ref = index into the bridged-path list) and kind 0 a
standalone contig (ref = contig id). -/
structure OutEntry where
  kind : Nat
  ref : Int
  len : Int
  deriving DecidableEq, Repr

/-- The paths of size ≥ 2 (`path.size() >= 2`). -/
def bridgedPaths (paths : List (List Int)) : List (List Int) :=
  paths.filter (fun p => 2 ≤ p.length)

/-- `bridged_contig_ids`: every contig id occurring in a path of
size ≥ 2. -/
def bridgedIds (paths : List (List Int)) : List Int :=
  (bridgedPaths paths).flatten.map endIdToId

/-- The `all_contigs` vector: bridged entries in path order, then the
standalone entries — contigs neither bridged nor contained (source lines
107–129). -/
def allContigs (store : ReadStore) (edges : Int → Int → ContigEdge)
    (paths : List (List Int)) (contained contigs : List Int) : List OutEntry :=
  ((bridgedPaths paths).enum.map
    (fun ip => OutEntry.mk 1 (ip.1 : Int) (pathSortLen store edges ip.2))) ++
  (contigs.filterMap (fun c =>
    if c ∉ bridgedIds paths ∧ c ∉ contained
      then some (OutEntry.mk 0 c (store.getSeqLength c))
      else none))

/-- The header/sequence rendered for one entry (source lines 139–166). -/
def renderEntry (store : ReadStore) (edges : Int → Int → ContigEdge)
    (paths : List (List Int)) (e : OutEntry) : String × String :=
  if e.kind = 0 then (store.idToName e.ref, store.getSeq e.ref)
  else
    let p := (bridgedPaths paths).getD e.ref.toNat []
    (stitchHead store edges p, stitchSeq store edges p)

/-- Insertion step of sorting entries by length, descending
(`a[2] > b[2]`). -/
def insertEntry (e : OutEntry) : List OutEntry → List OutEntry
  | [] => [e]
  | x :: xs => if x.len < e.len then e :: x :: xs else x :: insertEntry e xs

/-- Sort the entries by length, descending. -/
def sortEntries (l : List OutEntry) : List OutEntry := l.foldr insertEntry []

/-- The entries that are actually written: sorted, then kept iff the
rendered sequence length reaches `min_contig_length_`
(source line 167). -/
def outputEntries (store : ReadStore) (edges : Int → Int → ContigEdge)
    (paths : List (List Int)) (contained contigs : List Int)
    (minLen : Int) : List OutEntry :=
  (sortEntries (allContigs store edges paths contained contigs)).filter
    (fun e => minLen ≤ ((renderEntry store edges paths e).2.length : Int))

/-- `SaveBridgedContigs`: when the destination opens, the kept entries
are rendered and written in order; otherwise
`LOG(ERROR)("Failed to Write BridgeContigs file")` and nothing is
written. -/
def SaveBridgedContigs (canOpen : Bool) (store : ReadStore)
    (edges : Int → Int → ContigEdge) (paths : List (List Int))
    (contained contigs : List Int) (minLen : Int) :
    Except String (List (String × String)) :=
  if canOpen then
    Except.ok ((outputEntries store edges paths contained contigs minLen).map
      (renderEntry store edges paths))
  else Except.error "Failed to Write BridgeContigs file"

/-- The observable outcome of the save step inside `Run`. -/
structure RunSaveResult where
  written : Except String (List (String × String))
  dumped : Bool
  deriving Repr

/-- Modelled from the spec: the tail of `Run` — `SaveBridgedContigs`
followed by the optional `Dump`; a failure to open the destination is
reported through the fatal error logger and the run terminates, so no
subsequent step executes. -/
def runSaveStage (canOpen dump : Bool) (store : ReadStore)
    (edges : Int → Int → ContigEdge) (paths : List (List Int))
    (contained contigs : List Int) (minLen : Int) : RunSaveResult :=
  match SaveBridgedContigs canOpen store edges paths contained contigs minLen with
  | Except.error e => ⟨Except.error e, false⟩
  | Except.ok l => ⟨Except.ok l, dump⟩

lemma foldl_str {α : Type} (f : α → String) :
    ∀ (l : List α) (init : String),
      l.foldl (fun acc x => acc ++ f x) init = init ++ joinStr (l.map f)
  | [], init => by simp [joinStr]
  | x :: xs, init => by
    simp only [List.foldl_cons, List.map_cons, joinStr, List.foldr_cons]
    rw [foldl_str f xs (init ++ f x)]
    rw [String.append_assoc]
    rfl

lemma mem_insertEntry (e a : OutEntry) :
    ∀ l : List OutEntry, a ∈ insertEntry e l ↔ a = e ∨ a ∈ l
  | [] => by simp [insertEntry]
  | x :: xs => by
    unfold insertEntry
    split_ifs
    · simp
    · rw [List.mem_cons, mem_insertEntry e a xs, List.mem_cons]
      tauto

lemma mem_sortEntries (a : OutEntry) :
    ∀ l : List OutEntry, a ∈ sortEntries l ↔ a ∈ l
  | [] => by simp [sortEntries]
  | x :: xs => by
    have h : sortEntries (x :: xs) = insertEntry x (sortEntries xs) := rfl
    rw [h, mem_insertEntry, mem_sortEntries a xs, List.mem_cons]

/-- The three-contig store of the round-trip stitching test: contigs 0,
1, 2 carry `"AAAA"`, `"CCCC"`, `"GGGG"`; span id 10 resolves to the
2-base filler `"TT"`, spans 1 and 2 to the following contigs' bases. -/
def cexStore : ReadStore :=
  { getSeq := fun i =>
      if i = 0 then "AAAA" else if i = 1 then "CCCC"
      else if i = 2 then "GGGG" else ""
    getAreaSeq := fun sa =>
      if sa.id = 10 then "TT" else if sa.id = 1 then "CCCC"
      else if sa.id = 2 then "GGGG" else ""
    getSeqLength := fun i => if 0 ≤ i ∧ i ≤ 2 then 4 else 0
    idToName := fun i =>
      if i = 0 then "ctg0" else if i = 1 then "ctg1"
      else if i = 2 then "ctg2" else "" }

/-- The edges of the round-trip stitching test: each edge contributes the
2-base filler `"TT"` followed by the next contig's span. -/
def cexEdges : Int → Int → ContigEdge := fun u v =>
  if u = -1 ∧ v = -2 then ⟨6, [⟨10, 0, 2⟩, ⟨1, 0, 4⟩]⟩
  else if u = -2 ∧ v = -3 then ⟨6, [⟨10, 2, 4⟩, ⟨2, 0, 4⟩]⟩
  else ⟨0, []⟩

/-- Claim C5 (confirmed): the stitched sequence of any path of length ≥ 2
is the first node's contig sequence (reverse-complemented when the end id
denotes reverse orientation) followed, edge by edge in path order, by the
edge's filler sequence spans; on the concrete three-contig path the
output is `"AAAA" + "TT" + "CCCC" + "TT" + "GGGG"` with length 16. -/
theorem c5_stitched_output (store : ReadStore)
    (edges : Int → Int → ContigEdge) (n0 : Int) (rest : List Int)
    (hlen : 2 ≤ (n0 :: rest).length) :
    (stitchSeq store edges (n0 :: rest) =
      (if 0 < n0 then ReverseComplement (store.getSeq (endIdToId n0))
        else store.getSeq (endIdToId n0)) ++
        joinStr ((consPairs (n0 :: rest)).map
          (fun uv => joinStr (((edges uv.1 uv.2).seqArea).map store.getAreaSeq)))) ∧
    stitchSeq cexStore cexEdges [-1, -2, -3] = "AAAATTCCCCTTGGGG" ∧
    (stitchSeq cexStore cexEdges [-1, -2, -3]).length = 16 := by
  refine ⟨?_, by rfl, by rfl⟩
  unfold stitchSeq
  dsimp only
  exact foldl_str _ _ _

/-- Claim C5, witness: the general clause applied to the concrete
three-contig path. -/
theorem c5_witness :
    2 ≤ ([(-1 : Int), -2, -3]).length ∧
      stitchSeq cexStore cexEdges [-1, -2, -3] = "AAAATTCCCCTTGGGG" :=
  ⟨by norm_num,
    (c5_stitched_output cexStore cexEdges (-1) [-2, -3] (by norm_num)).2.1⟩

/-- Claim C6 (confirmed): a contained contig id never appears as a
standalone output entry, even when it belongs to no path; and every
contig id that is neither contained nor part of any path of length ≥ 2
is collected as a standalone entry rendered with its original name and
sequence, emitted iff it passes the minimum-length filter. -/
theorem c6_contained_standalone (store : ReadStore)
    (edges : Int → Int → ContigEdge) (paths : List (List Int))
    (contained contigs : List Int) (minLen : Int) (c : Int) :
    (c ∈ contained →
      ∀ e ∈ outputEntries store edges paths contained contigs minLen,
        e.kind = 0 → e.ref ≠ c) ∧
    (c ∈ contigs → c ∉ contained → c ∉ bridgedIds paths →
      OutEntry.mk 0 c (store.getSeqLength c) ∈
          allContigs store edges paths contained contigs ∧
        renderEntry store edges paths (OutEntry.mk 0 c (store.getSeqLength c)) =
          (store.idToName c, store.getSeq c) ∧
        (OutEntry.mk 0 c (store.getSeqLength c) ∈
            outputEntries store edges paths contained contigs minLen ↔
          minLen ≤ ((store.getSeq c).length : Int))) := by
  constructor
  · intro hc e he hk
    have he' : e ∈ allContigs store edges paths contained contigs := by
      unfold outputEntries at he
      exact (mem_sortEntries e _).mp (List.mem_filter.mp he).1
    unfold allContigs at he'
    rcases List.mem_append.mp he' with h | h
    · rw [List.mem_map] at h
      obtain ⟨ip, _, hip⟩ := h
      rw [← hip] at hk
      exact absurd hk (by norm_num)
    · rw [List.mem_filterMap] at h
      obtain ⟨a, ha, hsome⟩ := h
      split_ifs at hsome with hcond
      · injection hsome with hsome
        rw [← hsome]
        intro hac
        have hac' : a = c := hac
        exact hcond.2 (hac' ▸ hc)
  · intro hc hnc hnb
    have hmem : OutEntry.mk 0 c (store.getSeqLength c) ∈
        allContigs store edges paths contained contigs := by
      unfold allContigs
      refine List.mem_append.mpr (Or.inr ?_)
      exact List.mem_filterMap.mpr ⟨c, hc, by rw [if_pos ⟨hnb, hnc⟩]⟩
    refine ⟨hmem, by simp [renderEntry], ?_⟩
    unfold outputEntries
    rw [List.mem_filter, mem_sortEntries]
    simp [hmem, renderEntry]

/-- Claim C6, witness: id 5 is contained and never standalone; id 7 is
neither contained nor bridged and is collected standalone. -/
theorem c6_witness :
    ((5 : Int) ∈ [(5 : Int)]) ∧
      (∀ e ∈ outputEntries cexStore cexEdges [] [5] [5, 7] 0,
        e.kind = 0 → e.ref ≠ 5) ∧
      OutEntry.mk 0 7 (cexStore.getSeqLength 7) ∈
        allContigs cexStore cexEdges [] [5] [5, 7] :=
  ⟨by simp,
    (c6_contained_standalone cexStore cexEdges [] [5] [5, 7] 0 5).1 (by simp),
    ((c6_contained_standalone cexStore cexEdges [] [5] [5, 7] 0 7).2
      (by simp) (by simp) (by simp [bridgedIds, bridgedPaths])).1⟩

/-- Claim C7 (confirmed): an entry is written iff it was collected and
its final rendered sequence length reaches the configured minimum;
entries below the minimum are dropped while the save still succeeds
(no error is raised). -/
theorem c7_min_length_filter (store : ReadStore)
    (edges : Int → Int → ContigEdge) (paths : List (List Int))
    (contained contigs : List Int) (minLen : Int) (e : OutEntry) :
    (e ∈ outputEntries store edges paths contained contigs minLen ↔
      e ∈ allContigs store edges paths contained contigs ∧
        minLen ≤ ((renderEntry store edges paths e).2.length : Int)) ∧
    SaveBridgedContigs true store edges paths contained contigs minLen =
      Except.ok ((outputEntries store edges paths contained contigs minLen).map
        (renderEntry store edges paths)) := by
  constructor
  · unfold outputEntries
    rw [List.mem_filter, mem_sortEntries]
    simp
  · rfl

/-- Claim C8 (confirmed): when the destination file cannot be opened,
`SaveBridgedContigs` reports the error, writes no record, and the
subsequent `Dump` step never runs. -/
theorem c8_open_failure (dump : Bool) (store : ReadStore)
    (edges : Int → Int → ContigEdge) (paths : List (List Int))
    (contained contigs : List Int) (minLen : Int) :
    SaveBridgedContigs false store edges paths contained contigs minLen =
        Except.error "Failed to Write BridgeContigs file" ∧
      (runSaveStage false dump store edges paths contained contigs minLen).written =
        Except.error "Failed to Write BridgeContigs file" ∧
      (runSaveStage false dump store edges paths contained contigs minLen).dumped =
        false :=
  ⟨rfl, rfl, rfl⟩

end ContigBridge
